import Mathlib

/-!
Shallow embedding of the ontology-driven knowledge-graph form application
(`src/app.py`): RDF data model, label resolution, schema discovery queries,
instance catalog, identifier minting and the mutation gateway, together with
theorems checking the natural-language specification against this code.
-/

/-- RDF term: an IRI reference, a literal (lexical value plus language tag,
`""` meaning no tag), or a blank node with an id (as in rdflib, where
`str` of a term yields the IRI, the lexical value, or the blank id). -/
inductive Node where
  | uri (s : String)
  | lit (value : String) (lang : String)
  | bnode (id : String)
deriving DecidableEq

/-- A single (subject, predicate, object) triple. -/
structure Triple where
  s : Node
  p : Node
  o : Node
deriving DecidableEq

/-- The store is modelled as the list of triples it holds (rdflib graph). -/
abbrev Graph := List Triple

/-- `str(term)` of rdflib: IRI text, lexical value, or blank-node id. -/
def nodeStr : Node → String
  | .uri s => s
  | .lit v _ => v
  | .bnode i => i

/-- `isBlank` of SPARQL. -/
def isBlank : Node → Bool
  | .bnode _ => true
  | _ => false

/-- Python truthiness of an rdflib term (`if label:`): its string is non-empty. -/
def truthyN (n : Node) : Bool := decide (nodeStr n ≠ "")

/-- Python truthiness of an optional form field (`request.form.get`). -/
def truthyO : Option String → Bool
  | some s => decide (s ≠ "")
  | none => false

def RDF_type : Node := .uri "http://www.w3.org/1999/02/22-rdf-syntax-ns#type"

def RDF_Property : Node := .uri "http://www.w3.org/1999/02/22-rdf-syntax-ns#Property"

def RDFS_label : Node := .uri "http://www.w3.org/2000/01/rdf-schema#label"

def RDFS_subClassOf : Node := .uri "http://www.w3.org/2000/01/rdf-schema#subClassOf"

def RDFS_domain : Node := .uri "http://www.w3.org/2000/01/rdf-schema#domain"

def RDFS_range : Node := .uri "http://www.w3.org/2000/01/rdf-schema#range"

def OWL_Class : Node := .uri "http://www.w3.org/2002/07/owl#Class"

def OWL_ObjectProperty : Node := .uri "http://www.w3.org/2002/07/owl#ObjectProperty"

def OWL_DatatypeProperty : Node := .uri "http://www.w3.org/2002/07/owl#DatatypeProperty"

/-- `str(XSD)` of rdflib. -/
def XSD_str : String := "http://www.w3.org/2001/XMLSchema#"

/-- `str(EX)`: the ontology namespace of the application. -/
def EX_str : String := "https://purl.bioontology.org/ontology/ONTOFLAP/"

/-- `str(BASE_URI)`: the separate namespace for minted instances. -/
def BASE_URI_str : String := "https://purl.bioontology.org/ontology/ONTOFLAP/instances/"

/-- `pre.data.isPrefixOf s.data`: `s.startswith(pre)` of Python / `STRSTARTS`. -/
def strHasPre (pre s : String) : Bool := pre.data.isPrefixOf s.data

/-- Anchored match of a regex pattern against a string where every `.` in the
pattern is the regex wildcard and all other characters are literal — exactly
the shape of the patterns `^http://www.w3.org/` used in the source queries. -/
def dotMatch : List Char → List Char → Bool
  | [], _ => true
  | _ :: _, [] => false
  | p :: ps, c :: cs => (decide (p = '.') || decide (p = c)) && dotMatch ps cs

/-- `regex(str(?x), "^http://www.w3.org/")` of the source queries. -/
def w3Match (s : String) : Bool := dotMatch "http://www.w3.org/".data s.data

/-- Python `s.split(c)[-1]`: the substring after the last occurrence of `c`. -/
def afterLast (c : Char) (s : String) : String :=
  String.mk ((s.data.reverse.takeWhile (fun a => decide (a ≠ c))).reverse)

/-- rdflib's `graph.value(subject=s, predicate=p)`: the object of the first
matching triple, if any. -/
def graphValue (g : Graph) (s p : Node) : Option Node :=
  (g.find? (fun t => decide (t.s = s) && decide (t.p = p))).map (fun t => t.o)

/-- `get_label` of `src/app.py`: the lexical value for a literal; otherwise the
first truthy `rdfs:label`; otherwise the local name after the last `#` or `/`;
otherwise the full IRI string.  The Python `try` around the traversal cannot
fire in this total model, matching its final fallback to `str(subject_uri)`. -/
def get_label (subject_uri : Node) (graph : Graph) : String :=
  match subject_uri with
  | .lit v _ => v
  | _ =>
    match graphValue graph subject_uri RDFS_label with
    | some label =>
      if nodeStr label ≠ "" then nodeStr label
      else
        let name := afterLast '/' (afterLast '#' (nodeStr subject_uri))
        if name ≠ "" then name else nodeStr subject_uri
    | none =>
      let name := afterLast '/' (afterLast '#' (nodeStr subject_uri))
      if name ≠ "" then name else nodeStr subject_uri

/-- `mint_instance_uri` of `src/app.py`: `base_namespace[unique_id]` where
`unique_id = str(uuid.uuid4())`.  The nondeterministic UUID draw is passed as
the explicit argument `unique_id`; the `name` hint is accepted and ignored,
as in the source. -/
def mint_instance_uri (base_namespace : String) (name : Option String)
    (unique_id : String) : Node :=
  Node.uri (base_namespace ++ unique_id)

/-- rdflib `graph.add`: set-semantics insertion (adding an existing triple is
a no-op). -/
def graphAdd (g : Graph) (t : Triple) : Graph :=
  if t ∈ g then g else g ++ [t]

/-- The fields read from the submitted form in `add_triple`; each is `none`
when the field is absent from the request. -/
structure FormData where
  subjectName : Option String
  subjectClass : Option String
  property : Option String
  objectKind : Option String
  objectValueLiteral : Option String
  objectValueInstance : Option String
deriving DecidableEq

/-- Outcome of `add_triple`: which rejection fired, or success with the newly
minted subject (the source flashes a message and redirects in each case). -/
inductive AddResult where
  | missingRequired
  | emptyLiteral
  | emptyInstance
  | invalidKind
  | success (subject : Node)
deriving DecidableEq

def AddResult.isSuccess : AddResult → Bool
  | .success _ => true
  | _ => false

/-- `add_triple` of `src/app.py` (the mutation gateway): validation guards,
then minting of a fresh subject via `mint_instance_uri` and insertion of the
three triples (subject, rdf:type, class), (subject, rdfs:label, name),
(subject, property, object).  The UUID draw is the explicit `unique_id`. -/
def add_triple (g : Graph) (form : FormData) (unique_id : String) :
    Graph × AddResult :=
  if ¬(truthyO form.subjectName ∧ truthyO form.subjectClass ∧
        truthyO form.property ∧ truthyO form.objectKind) then
    (g, .missingRequired)
  else if form.objectKind = some "literal" ∧ ¬truthyO form.objectValueLiteral then
    (g, .emptyLiteral)
  else if form.objectKind = some "instance" ∧ ¬truthyO form.objectValueInstance then
    (g, .emptyInstance)
  else
    let subject_uri := mint_instance_uri BASE_URI_str form.subjectName unique_id
    let subject_class := Node.uri (form.subjectClass.getD "")
    let prop := Node.uri (form.property.getD "")
    if form.objectKind = some "literal" then
      let obj := Node.lit (form.objectValueLiteral.getD "") ""
      let g1 := graphAdd g ⟨subject_uri, RDF_type, subject_class⟩
      let g2 := graphAdd g1 ⟨subject_uri, RDFS_label,
        Node.lit (form.subjectName.getD "") ""⟩
      let g3 := graphAdd g2 ⟨subject_uri, prop, obj⟩
      (g3, .success subject_uri)
    else if form.objectKind = some "instance" then
      let obj := Node.uri (form.objectValueInstance.getD "")
      let g1 := graphAdd g ⟨subject_uri, RDF_type, subject_class⟩
      let g2 := graphAdd g1 ⟨subject_uri, RDFS_label,
        Node.lit (form.subjectName.getD "") ""⟩
      let g3 := graphAdd g2 ⟨subject_uri, prop, obj⟩
      (g3, .success subject_uri)
    else
      (g, .invalidKind)

/-- The subclass-of edge relation of the graph, as read by the queries'
`rdfs:subClassOf` patterns. -/
def SubEdge (g : Graph) (x y : Node) : Prop :=
  (⟨x, RDFS_subClassOf, y⟩ : Triple) ∈ g

instance (g : Graph) (x y : Node) : Decidable (SubEdge g x y) := by
  unfold SubEdge; infer_instance

/-- Objects of the `rdfs:subClassOf` triples whose subject is `x`. -/
def directSupers (g : Graph) (x : Node) : List Node :=
  g.filterMap (fun t => if t.s = x ∧ t.p = RDFS_subClassOf then some t.o else none)

/-- One saturation step of the `rdfs:subClassOf*` property-path evaluation:
add the direct superclasses of every member. -/
def superStep (g : Graph) (S : Finset Node) : Finset Node :=
  S ∪ S.biUnion (fun c => (directSupers g c).toFinset)

/-- Evaluation of the SPARQL property path `<a> rdfs:subClassOf* ?x`: the set
of nodes reachable from `a` along subclass-of edges (saturated; `g.length + 1`
steps always suffice, see `mem_superClosure`). -/
def superClosure (g : Graph) (a : Node) : Finset Node :=
  (superStep g)^[g.length + 1] {a}

/-- Universe bound for the saturation: the start node plus every object of a
subclass-of triple. -/
def superUniv (g : Graph) (a : Node) : Finset Node :=
  insert a (g.filterMap (fun t =>
    if t.p = RDFS_subClassOf then some t.o else none)).toFinset

/-- ASCII lowering of one character, for the case-insensitive `langMatches`. -/
def lcChar (c : Char) : Char :=
  if 'A' ≤ c ∧ c ≤ 'Z' then Char.ofNat (c.toNat + 32) else c

def lcStr (s : String) : String := String.mk (s.data.map lcChar)

/-- The label filter used by all three queries:
`lang(?l) = "" || langMatches(lang(?l), "en")`.  `lang` of a non-literal is a
SPARQL evaluation error, which makes the filter drop the binding. -/
def langOK : Node → Bool
  | .lit _ l =>
    decide (l = "") || decide (lcStr l = "en") || strHasPre "en-" (lcStr l)
  | _ => false

/-- The bindings of `OPTIONAL { ?x rdfs:label ?l . FILTER(...) }` for `x`. -/
def eligibleLabels (g : Graph) (x : Node) : List Node :=
  g.filterMap (fun t =>
    if t.s = x ∧ t.p = RDFS_label ∧ langOK t.o = true then some t.o else none)

/-- The bindings of `OPTIONAL { ?prop rdfs:range ?r . }`. -/
def rangesOf (g : Graph) (p : Node) : List Node :=
  g.filterMap (fun t => if t.s = p ∧ t.p = RDFS_range then some t.o else none)

/-- Solutions of an OPTIONAL pattern: one unbound row when nothing matches,
otherwise one row per match. -/
def optRows {α : Type} : List α → List (Option α)
  | [] => [none]
  | x :: xs => (x :: xs).map some

/-- The three recognized property kinds of the queries' filter
`?propType IN (owl:ObjectProperty, owl:DatatypeProperty, rdf:Property)`. -/
def recPropTypes : List Node := [OWL_ObjectProperty, OWL_DatatypeProperty, RDF_Property]

/-- Bindings of `?prop a ?propType` restricted by the recognized-kind filter. -/
def typesOf (g : Graph) (p : Node) : List Node :=
  g.filterMap (fun t =>
    if t.s = p ∧ t.p = RDF_type ∧ t.o ∈ recPropTypes then some t.o else none)

/-- `?prop rdfs:domain ?anyDomain` has a solution. -/
def hasDomain (g : Graph) (p : Node) : Prop :=
  ∃ t ∈ g, t.s = p ∧ t.p = RDFS_domain

instance (g : Graph) (p : Node) : Decidable (hasDomain g p) := by
  unfold hasDomain; infer_instance

/-- Lexicographic order on character lists by code point, for `ORDER BY`. -/
def charsLT : List Char → List Char → Bool
  | _, [] => false
  | [], _ :: _ => true
  | a :: as, b :: bs =>
    decide (a.toNat < b.toNat) || (decide (a = b) && charsLT as bs)

def strLT (a b : String) : Bool := charsLT a.data b.data

/-- SPARQL ordering key comparison used for `ORDER BY ?label ?iri`. -/
def keyLE (a b : String × String) : Prop :=
  strLT a.1 b.1 = true ∨ (a.1 = b.1 ∧ (strLT a.2 b.2 = true ∨ a.2 = b.2))

instance : DecidableRel keyLE := fun a b => by unfold keyLE; infer_instance

/-- One solution row of the class-discovery query of `get_ontology_classes`
(projection `SELECT ?class_uri ?label`, `?label` possibly unbound). -/
structure CRow where
  class_uri : Node
  label : Option Node
deriving DecidableEq

/-- The `UNION` of the three candidate patterns of the class query:
`?class_uri a owl:Class`, subjects of `rdfs:subClassOf` (non-blank), and
objects of `rdfs:domain` (non-blank). -/
def classCandidates (g : Graph) : List Node :=
  g.filterMap (fun t => if t.p = RDF_type ∧ t.o = OWL_Class then some t.s else none)
  ++ (g.filterMap (fun t =>
      if t.p = RDFS_subClassOf then some t.s else none)).filter (fun c => !isBlank c)
  ++ (g.filterMap (fun t =>
      if t.p = RDFS_domain then some t.o else none)).filter (fun c => !isBlank c)

/-- The solution rows of the class query before `DISTINCT`/`ORDER BY`: the
candidates pass the blank-node and `^http://www.w3.org/` filters and are
joined with their optional eligible labels. -/
def classRowsRaw (g : Graph) : List CRow :=
  ((classCandidates g).filter
      (fun c => !isBlank c && !w3Match (nodeStr c))).flatMap
    (fun c => (optRows (eligibleLabels g c)).map
      (fun lopt => { class_uri := c, label := lopt }))

def cRowLE (a b : CRow) : Prop :=
  keyLE ((a.label.map nodeStr).getD "", nodeStr a.class_uri)
    ((b.label.map nodeStr).getD "", nodeStr b.class_uri)

instance : DecidableRel cRowLE := fun a b => by unfold cRowLE; infer_instance

/-- `SELECT DISTINCT ... ORDER BY ?label ?class_uri` of the class query. -/
def classRowList (g : Graph) : List CRow :=
  List.insertionSort cRowLE (classRowsRaw g).dedup

/-- One element of the list returned by `get_ontology_classes`. -/
structure CEntry where
  uri : String
  label : String
deriving DecidableEq

/-- The Python loop body of `get_ontology_classes`: stringify the IRI and take
the bound label when truthy, else `get_label` as fallback. -/
def processClassRow (g : Graph) (row : CRow) : CEntry :=
  { uri := nodeStr row.class_uri
    label :=
      match row.label with
      | some l => if nodeStr l ≠ "" then nodeStr l else get_label row.class_uri g
      | none => get_label row.class_uri g }

/-- The `try`/`except` boundary of `get_ontology_classes`: the rows are the
outcome of the traversal (`graph.query`); when it raises, the exception is
caught and the (empty) accumulated result list is returned. -/
def get_ontology_classes_run (g : Graph)
    (traversal : Except String (List CRow)) : List CEntry :=
  match traversal with
  | Except.error _ => []
  | Except.ok rows => rows.map (processClassRow g)

/-- `get_ontology_classes` of `src/app.py` on a successful traversal. -/
def get_ontology_classes (g : Graph) : List CEntry :=
  get_ontology_classes_run g (Except.ok (classRowList g))

/-- One solution row of the property query of `get_properties_for_class`
(projection `SELECT ?prop ?label ?range ?type` after the `BIND`s, so `?label`,
`?range` and `?type` are always bound). -/
structure PropRow where
  prop : Node
  label : Node
  range : Node
  ptype : String
deriving DecidableEq

/-- `IF(?propType = owl:ObjectProperty, "object", IF(?propType =
owl:DatatypeProperty, "datatype", "unknown"))`. -/
def propTypeName (pt : Node) : String :=
  if pt = OWL_ObjectProperty then "object"
  else if pt = OWL_DatatypeProperty then "datatype"
  else "unknown"

/-- The `UNION` of the property query: properties whose `rdfs:domain` meets
the `rdfs:subClassOf*` closure of the target class, together with properties
of a recognized kind that have no domain at all. -/
def propCandidates (g : Graph) (target : Node) : List Node :=
  g.filterMap (fun t =>
    if t.p = RDFS_domain ∧ t.o ∈ superClosure g target then some t.s else none)
  ++ (g.filterMap (fun t =>
      if t.p = RDF_type ∧ t.o ∈ recPropTypes then some t.s else none)).filter
      (fun p => decide (¬hasDomain g p))

/-- The solution rows of the property query before `DISTINCT`/`ORDER BY`:
candidates joined with `?prop a ?propType` (recognized kinds), filtered by
`!regex(str(?prop), "^http://www.w3.org/")`, joined with the optional label
and range bindings, and completed by the three `BIND`s. -/
def propRowsRaw (g : Graph) (class_uri_str : String) : List PropRow :=
  (propCandidates g (Node.uri class_uri_str)).flatMap (fun p =>
    if w3Match (nodeStr p) then []
    else
      (typesOf g p).flatMap (fun pt =>
        (optRows (eligibleLabels g p)).flatMap (fun lopt =>
          (optRows (rangesOf g p)).map (fun ropt =>
            { prop := p
              label := lopt.getD
                (Node.lit (afterLast '#' (afterLast '/' (nodeStr p))) "")
              range := ropt.getD (Node.lit "" "")
              ptype := propTypeName pt }))))

def propRowLE (a b : PropRow) : Prop :=
  keyLE (nodeStr a.label, nodeStr a.prop) (nodeStr b.label, nodeStr b.prop)

instance : DecidableRel propRowLE := fun a b => by unfold propRowLE; infer_instance

/-- `SELECT DISTINCT ... ORDER BY ?label ?prop` of the property query. -/
def propRowList (g : Graph) (class_uri_str : String) : List PropRow :=
  List.insertionSort propRowLE (propRowsRaw g class_uri_str).dedup

/-- One element of the list returned by `get_properties_for_class`. -/
structure PEntry where
  uri : String
  label : String
  range : Option String
  object_kind : String
deriving DecidableEq

/-- The Python loop body of `get_properties_for_class`: stringify the bound
variables (the falsy `COALESCE(?r, "")` becomes `None`) and resolve
`object_kind` from the declared kind and the range. -/
def processPropRow (g : Graph) (row : PropRow) : PEntry :=
  let prop_uri := nodeStr row.prop
  let label := nodeStr row.label
  let range_uri : Option String :=
    if truthyN row.range then some (nodeStr row.range) else none
  let prop_type := row.ptype
  let object_kind :=
    if prop_type = "object" then "instance"
    else
      match range_uri with
      | some r =>
        if (⟨Node.uri r, RDF_type, OWL_Class⟩ : Triple) ∈ g ∨
            ∃ t ∈ g, t.s = Node.uri r ∧ t.p = RDFS_subClassOf then "instance"
        else if strHasPre XSD_str r then "literal"
        else "literal"
      | none => "literal"
  { uri := prop_uri, label := label, range := range_uri, object_kind := object_kind }

/-- The post-processing dedup of `get_properties_for_class`: keep the first
entry for each IRI (`seen_uris` set in the source). -/
def dedupByUri : List PEntry → List String → List PEntry
  | [], _ => []
  | e :: rest, seen =>
    if e.uri ∈ seen then dedupByUri rest seen
    else e :: dedupByUri rest (e.uri :: seen)

/-- The `try`/`except` boundary of `get_properties_for_class`: the guard on an
empty class IRI runs first; when the traversal raises, the function falls
through to `return []`. -/
def get_properties_for_class_run (g : Graph) (class_uri_str : String)
    (traversal : Except String (List PropRow)) : List PEntry :=
  if class_uri_str = "" then []
  else
    match traversal with
    | Except.error _ => []
    | Except.ok rows => dedupByUri (rows.map (processPropRow g)) []

/-- `get_properties_for_class` of `src/app.py` on a successful traversal. -/
def get_properties_for_class (g : Graph) (class_uri_str : String) : List PEntry :=
  get_properties_for_class_run g class_uri_str
    (Except.ok (propRowList g class_uri_str))

/-- One solution row of the instance query of `get_existing_instances`
(projection `SELECT ?instance ?label` after the `BIND`, `?label` bound). -/
structure IRow where
  inst : Node
  label : Node
deriving DecidableEq

/-- All `(?instance, ?type)` bindings of `?instance a ?type`. -/
def instPairs (g : Graph) : List (Node × Node) :=
  g.filterMap (fun t => if t.p = RDF_type then some (t.s, t.o) else none)

/-- The filters of the instance query: the optional class scope
`?type rdfs:subClassOf* <class_uri>` (only injected for a truthy
`class_uri_str`), the two `FILTER NOT EXISTS` exclusions and `!isBlank`. -/
def instFilterOK (g : Graph) (class_uri_str : Option String)
    (i ty : Node) : Bool :=
  (match class_uri_str with
   | some c => if c ≠ "" then decide (Node.uri c ∈ superClosure g ty) else true
   | none => true) &&
  decide ((⟨i, RDF_type, OWL_Class⟩ : Triple) ∉ g) &&
  decide ((⟨i, RDF_type, RDF_Property⟩ : Triple) ∉ g) &&
  !isBlank i

/-- The solution rows of the instance query before `DISTINCT`/`ORDER BY`. -/
def instRowsRaw (g : Graph) (class_uri_str : Option String) : List IRow :=
  ((instPairs g).filter
      (fun pr => instFilterOK g class_uri_str pr.1 pr.2)).flatMap
    (fun pr => (optRows (eligibleLabels g pr.1)).map (fun lopt =>
      { inst := pr.1
        label := lopt.getD
          (Node.lit (afterLast '#' (afterLast '/' (nodeStr pr.1))) "") }))

def iRowLE (a b : IRow) : Prop :=
  keyLE (nodeStr a.label, nodeStr a.inst) (nodeStr b.label, nodeStr b.inst)

instance : DecidableRel iRowLE := fun a b => by unfold iRowLE; infer_instance

/-- `SELECT DISTINCT ... ORDER BY ?label ?instance` of the instance query. -/
def instRowList (g : Graph) (class_uri_str : Option String) : List IRow :=
  List.insertionSort iRowLE (instRowsRaw g class_uri_str).dedup

/-- One element of the list returned by `get_existing_instances`. -/
structure IEntry where
  uri : String
  label : String
deriving DecidableEq

/-- The Python loop body of `get_existing_instances` after the skip of the
ontology base IRI. -/
def processInstRow (g : Graph) (row : IRow) : IEntry :=
  { uri := nodeStr row.inst
    label :=
      if nodeStr row.label ≠ "" then nodeStr row.label
      else get_label row.inst g }

/-- The `try`/`except` boundary of `get_existing_instances`: on a traversal
error the caught exception leaves the accumulated results empty; on success
the loop skips rows whose instance IRI equals `str(EX)`. -/
def get_existing_instances_run (g : Graph) (class_uri_str : Option String)
    (traversal : Except String (List IRow)) : List IEntry :=
  match traversal with
  | Except.error _ => []
  | Except.ok rows =>
    (rows.filter (fun r => decide (nodeStr r.inst ≠ EX_str))).map
      (processInstRow g)

/-- `get_existing_instances` of `src/app.py` on a successful traversal. -/
def get_existing_instances (g : Graph) (class_uri_str : Option String) :
    List IEntry :=
  get_existing_instances_run g class_uri_str
    (Except.ok (instRowList g class_uri_str))

/-- The local-name fragment exactly as the spec words it: the substring after
the last `#` or `/` of the IRI text. -/
def localFragment (s : String) : String :=
  String.mk ((s.data.reverse.takeWhile (fun a => decide (a ≠ '/') && decide (a ≠ '#'))).reverse)

/-- Modelled from the spec's words for resolveLabel, amended only in the
second tier: the lexical value for a literal; otherwise the graph's preferred
label when a non-empty one is found (the source treats a falsy, empty label as
absent); otherwise the local-name fragment after the last `#` or `/`;
otherwise, when that fragment is empty, the full IRI string. -/
def resolveLabelSpec (entity : Node) (g : Graph) : String :=
  match entity with
  | .lit v _ => v
  | _ =>
    match graphValue g entity RDFS_label with
    | some l =>
      if nodeStr l ≠ "" then nodeStr l
      else if localFragment (nodeStr entity) ≠ "" then localFragment (nodeStr entity)
      else nodeStr entity
    | none =>
      if localFragment (nodeStr entity) ≠ "" then localFragment (nodeStr entity)
      else nodeStr entity

def gC8 : Graph := [⟨Node.uri "http://ex/x", RDFS_label, Node.lit "" ""⟩]

/-- The valueKind resolution rule exactly as the claim states it: declared
`object` kind gives `instance`; otherwise a range that is a recognized Class
IRI (typed `owl:Class` directly or carrying a subclass edge) gives `instance`;
otherwise a recognized XSD primitive datatype range gives `literal`; otherwise
the default `literal`. -/
def claimValueKind (g : Graph) (prop_type : String)
    (range_uri : Option String) : String :=
  if prop_type = "object" then "instance"
  else
    match range_uri with
    | some r =>
      if (⟨Node.uri r, RDF_type, OWL_Class⟩ : Triple) ∈ g ∨
          ∃ t ∈ g, t.s = Node.uri r ∧ t.p = RDFS_subClassOf then "instance"
      else if strHasPre XSD_str r then "literal"
      else "literal"
    | none => "literal"

def gC3 : Graph :=
  [⟨Node.uri "http://ex/A", RDF_type, OWL_Class⟩,
   ⟨Node.uri "http://ex/A", RDFS_label, Node.lit "x" ""⟩,
   ⟨Node.uri "http://ex/A", RDFS_label, Node.lit "y" ""⟩]

def gC2 : Graph := [⟨Node.uri "http://ex/P", RDFS_domain, Node.uri "http://ex/A"⟩]

/-- A literal term (RDF forbids these as triple subjects). -/
def isLit : Node → Bool
  | .lit _ _ => true
  | _ => false

example : afterLast '/' (afterLast '#' "http://ex.org/a#b") = "b" := by decide

example : get_label (Node.uri "http://ex.org/a#b") [] = "b" := by decide

example :
    get_label (Node.uri "http://ex.org/x")
      [⟨Node.uri "http://ex.org/x", RDFS_label, Node.lit "Ada" ""⟩] = "Ada" := by
  decide

theorem mem_directSupers {g : Graph} {x y : Node} :
    y ∈ directSupers g x ↔ SubEdge g x y := by
  unfold directSupers SubEdge
  rw [List.mem_filterMap]
  constructor
  · rintro ⟨t, ht, hf⟩
    split at hf
    · rename_i hc
      obtain ⟨h1, h2⟩ := hc
      cases t
      cases hf
      simp_all
    · cases hf
  · intro h
    exact ⟨⟨x, RDFS_subClassOf, y⟩, h, by simp⟩

theorem subset_superStep (g : Graph) (S : Finset Node) : S ⊆ superStep g S :=
  Finset.subset_union_left

theorem self_mem_superIter (g : Graph) (a : Node) :
    ∀ n, a ∈ (superStep g)^[n] {a} := by
  intro n
  induction n with
  | zero => simp
  | succ n ih =>
    rw [Function.iterate_succ_apply']
    exact subset_superStep g _ ih

theorem superIter_subset_univ (g : Graph) (a : Node) :
    ∀ n, (superStep g)^[n] {a} ⊆ superUniv g a := by
  intro n
  induction n with
  | zero => simp [superUniv]
  | succ n ih =>
    rw [Function.iterate_succ_apply']
    apply Finset.union_subset ih
    apply Finset.biUnion_subset.2
    intro c _
    intro x hx
    rw [List.mem_toFinset, mem_directSupers] at hx
    unfold superUniv
    apply Finset.mem_insert_of_mem
    rw [List.mem_toFinset, List.mem_filterMap]
    exact ⟨_, hx, by simp⟩

theorem superUniv_card_le (g : Graph) (a : Node) :
    (superUniv g a).card ≤ g.length + 1 := by
  unfold superUniv
  have h0 := Finset.card_insert_le a (g.filterMap (fun t =>
    if t.p = RDFS_subClassOf then some t.o else none)).toFinset
  have h1 : (g.filterMap (fun t =>
      if t.p = RDFS_subClassOf then some t.o else none)).toFinset.card ≤
      (g.filterMap (fun t =>
      if t.p = RDFS_subClassOf then some t.o else none)).length :=
    List.toFinset_card_le _
  have h2 : (g.filterMap (fun t =>
      if t.p = RDFS_subClassOf then some t.o else none)).length ≤ g.length :=
    List.length_filterMap_le _ _
  omega

theorem exists_superStep_stable (g : Graph) (a : Node) :
    ∃ m ≤ g.length, superStep g ((superStep g)^[m] {a}) = (superStep g)^[m] {a} := by
  by_contra hcon
  push_neg at hcon
  have grow : ∀ n, n ≤ g.length + 1 → n + 1 ≤ ((superStep g)^[n] {a}).card := by
    intro n
    induction n with
    | zero => intro _; simp
    | succ n ih =>
      intro hn
      have hne := hcon n (by omega)
      have hss : (superStep g)^[n] {a} ⊂ (superStep g)^[n + 1] {a} := by
        rw [Function.iterate_succ_apply']
        exact ⟨subset_superStep g _, fun hsub =>
          hne (Finset.Subset.antisymm hsub (subset_superStep g _))⟩
      have := Finset.card_lt_card hss
      have := ih (by omega)
      omega
  have h1 := grow (g.length + 1) (le_refl _)
  have h2 := Finset.card_le_card (superIter_subset_univ g a (g.length + 1))
  have h3 := superUniv_card_le g a
  omega

theorem superClosure_fixed (g : Graph) (a : Node) :
    superStep g (superClosure g a) = superClosure g a := by
  obtain ⟨m, hm, hfix⟩ := exists_superStep_stable g a
  have stay : ∀ j, (superStep g)^[m + j] {a} = (superStep g)^[m] {a} := by
    intro j
    induction j with
    | zero => rfl
    | succ j ih =>
      have : m + (j + 1) = (m + j) + 1 := by omega
      rw [this, Function.iterate_succ_apply', ih]
      exact hfix
  have hrepr : superClosure g a = (superStep g)^[m] {a} := by
    unfold superClosure
    have : g.length + 1 = m + (g.length + 1 - m) := by omega
    rw [this, stay]
  rw [hrepr]
  exact hfix

theorem superIter_sound {g : Graph} {a : Node} :
    ∀ {n} {b : Node}, b ∈ (superStep g)^[n] {a} →
      Relation.ReflTransGen (SubEdge g) a b := by
  intro n
  induction n with
  | zero =>
    intro b h
    simp only [Function.iterate_zero, id_eq, Finset.mem_singleton] at h
    exact h ▸ Relation.ReflTransGen.refl
  | succ n ih =>
    intro b h
    rw [Function.iterate_succ_apply'] at h
    rcases Finset.mem_union.1 h with h | h
    · exact ih h
    · obtain ⟨c, hc, hb⟩ := Finset.mem_biUnion.1 h
      rw [List.mem_toFinset, mem_directSupers] at hb
      exact (ih hc).tail hb

/-- Correctness of the `rdfs:subClassOf*` evaluation: membership in the
saturated set is exactly reflexive-transitive reachability along
subclass-of edges. -/
theorem mem_superClosure {g : Graph} {a b : Node} :
    b ∈ superClosure g a ↔ Relation.ReflTransGen (SubEdge g) a b := by
  constructor
  · exact superIter_sound
  · intro h
    induction h with
    | refl => exact self_mem_superIter g a _
    | tail _ e ih =>
      rw [← superClosure_fixed g a]
      apply Finset.mem_union_right
      apply Finset.mem_biUnion.2
      exact ⟨_, ih, List.mem_toFinset.2 (mem_directSupers.2 e)⟩

example :
    Node.uri "C" ∈ superClosure
      [⟨Node.uri "A", RDFS_subClassOf, Node.uri "B"⟩,
       ⟨Node.uri "B", RDFS_subClassOf, Node.uri "C"⟩] (Node.uri "A") := by decide

example :
    Node.uri "A" ∉ superClosure
      [⟨Node.uri "A", RDFS_subClassOf, Node.uri "B"⟩,
       ⟨Node.uri "B", RDFS_subClassOf, Node.uri "C"⟩] (Node.uri "B") := by decide

theorem mem_filterMap_guard {α β : Type} {l : List α} {P : α → Prop}
    [DecidablePred P] {f : α → β} {b : β} :
    b ∈ l.filterMap (fun a => if P a then some (f a) else none) ↔
      ∃ a ∈ l, P a ∧ f a = b := by
  rw [List.mem_filterMap]
  constructor
  · rintro ⟨a, ha, hf⟩
    split at hf
    · exact ⟨a, ha, by assumption, Option.some.inj hf⟩
    · cases hf
  · rintro ⟨a, ha, hP, rfl⟩
    exact ⟨a, ha, by rw [if_pos hP]⟩

theorem mem_graphAdd {g : Graph} {t t' : Triple} :
    t' ∈ graphAdd g t ↔ t' ∈ g ∨ t' = t := by
  unfold graphAdd
  split
  · rename_i h
    constructor
    · exact Or.inl
    · rintro (h' | rfl)
      · exact h'
      · exact h
  · simp [List.mem_append]

theorem mint_instance_uri_inj {b : String} {n1 n2 : Option String}
    {u1 u2 : String}
    (h : mint_instance_uri b n1 u1 = mint_instance_uri b n2 u2) : u1 = u2 := by
  unfold mint_instance_uri at h
  have h2 : b ++ u1 = b ++ u2 := by injection h
  have h3 : (b ++ u1).data = (b ++ u2).data := congrArg String.data h2
  rw [String.data_append, String.data_append] at h3
  have h4 := List.append_cancel_left h3
  exact String.ext h4

theorem optRows_ne_nil {α : Type} (l : List α) : optRows l ≠ [] := by
  cases l <;> simp [optRows]

theorem dedupByUri_subset :
    ∀ (l : List PEntry) (seen : List String), ∀ e ∈ dedupByUri l seen, e ∈ l := by
  intro l
  induction l with
  | nil => intro seen e he; cases he
  | cons hd tl ih =>
    intro seen e he
    unfold dedupByUri at he
    split at he
    · exact List.mem_cons_of_mem hd (ih seen e he)
    · rcases List.mem_cons.1 he with rfl | hsub
      · exact List.mem_cons_self _ _
      · exact List.mem_cons_of_mem hd (ih _ e hsub)

theorem dedupByUri_nodup :
    ∀ (l : List PEntry) (seen : List String),
      ((dedupByUri l seen).map PEntry.uri).Nodup ∧
      ∀ e ∈ dedupByUri l seen, e.uri ∉ seen := by
  intro l
  induction l with
  | nil => intro seen; exact ⟨List.nodup_nil, by intro e he; cases he⟩
  | cons hd tl ih =>
    intro seen
    unfold dedupByUri
    split
    · exact ih seen
    · rename_i hns
      obtain ⟨hnd, hout⟩ := ih (hd.uri :: seen)
      refine ⟨?_, ?_⟩
      · rw [List.map_cons, List.nodup_cons]
        constructor
        · intro hmem
          obtain ⟨e, he, heq⟩ := List.mem_map.1 hmem
          exact hout e he (heq ▸ List.mem_cons_self _ _)
        · exact hnd
      · intro e he
        rcases List.mem_cons.1 he with rfl | hsub
        · exact hns
        · intro hseen
          exact hout e hsub (List.mem_cons_of_mem _ hseen)

theorem dedupByUri_uri_mem :
    ∀ (l : List PEntry) (seen : List String) (s : String), s ∉ seen →
      ((∃ e ∈ l, e.uri = s) ↔ ∃ e ∈ dedupByUri l seen, e.uri = s) := by
  intro l
  induction l with
  | nil => intro seen s _; simp [dedupByUri]
  | cons hd tl ih =>
    intro seen s hs
    unfold dedupByUri
    split
    · rename_i hin
      rw [← ih seen s hs]
      constructor
      · rintro ⟨e, he, rfl⟩
        rcases List.mem_cons.1 he with rfl | hsub
        · exact absurd hin hs
        · exact ⟨e, hsub, rfl⟩
      · rintro ⟨e, he, rfl⟩
        exact ⟨e, List.mem_cons_of_mem hd he, rfl⟩
    · by_cases heq : hd.uri = s
      · constructor
        · rintro ⟨e, _, _⟩
          exact ⟨hd, List.mem_cons_self _ _, heq⟩
        · rintro ⟨e, _, _⟩
          exact ⟨hd, List.mem_cons_self _ _, heq⟩
      · have hs2 : s ∉ hd.uri :: seen := by
          intro hmem
          rcases List.mem_cons.1 hmem with h | h
          · exact heq h.symm
          · exact hs h
        constructor
        · rintro ⟨e, he, rfl⟩
          rcases List.mem_cons.1 he with rfl | hsub
          · exact absurd rfl heq
          · obtain ⟨e2, he2, hq⟩ := (ih _ _ hs2).1 ⟨e, hsub, rfl⟩
            exact ⟨e2, List.mem_cons_of_mem hd he2, hq⟩
        · rintro ⟨e, he, rfl⟩
          rcases List.mem_cons.1 he with rfl | hsub
          · exact absurd rfl heq
          · obtain ⟨e2, he2, hq⟩ := (ih _ _ hs2).2 ⟨e, hsub, rfl⟩
            exact ⟨e2, List.mem_cons_of_mem hd he2, hq⟩

/-- C5: for every input on which a discovery operation's graph traversal
raises an error, the operation catches it and returns an empty list instead of
propagating (here for `get_ontology_classes`, `get_properties_for_class` and
`get_existing_instances`, over any raised error). -/
theorem spec_c5_error_empty (g : Graph) (class_uri_str : String)
    (copt : Option String) (err : String) :
    get_ontology_classes_run g (Except.error err) = [] ∧
    get_properties_for_class_run g class_uri_str (Except.error err) = [] ∧
    get_existing_instances_run g copt (Except.error err) = [] := by
  refine ⟨rfl, ?_, rfl⟩
  unfold get_properties_for_class_run
  split <;> rfl

/-- C7: a submission with a missing required field, or with an empty literal
value for kind `literal`, or an empty instance IRI for kind `instance`, is
rejected before any mutation: the graph is returned unchanged and the result
is not a success. -/
theorem spec_c7_validation (g : Graph) (form : FormData) (uid : String)
    (h : ¬(truthyO form.subjectName ∧ truthyO form.subjectClass ∧
            truthyO form.property ∧ truthyO form.objectKind) ∨
         (form.objectKind = some "literal" ∧ ¬truthyO form.objectValueLiteral) ∨
         (form.objectKind = some "instance" ∧ ¬truthyO form.objectValueInstance)) :
    (add_triple g form uid).1 = g ∧
    (add_triple g form uid).2.isSuccess = false := by
  unfold add_triple
  split
  · exact ⟨rfl, rfl⟩
  · split
    · exact ⟨rfl, rfl⟩
    · split
      · exact ⟨rfl, rfl⟩
      · rename_i hA hB hC
        exfalso
        rcases h with h | h | h
        · exact hA h
        · exact hB h
        · exact hC h

theorem spec_c7_validation_wit :
    (add_triple []
        ⟨some "Ada", some "http://ex/C", some "http://ex/P", some "literal",
          some "", none⟩ "u1").1 = ([] : Graph) ∧
    (add_triple []
        ⟨some "Ada", some "http://ex/C", some "http://ex/P", some "literal",
          some "", none⟩ "u1").2.isSuccess = false :=
  spec_c7_validation [] _ "u1" (Or.inr (Or.inl (by decide)))

/-- C10: a submission whose object kind is non-empty but neither "literal" nor
"instance" (all required fields present) is rejected as an invalid object kind
with the graph unchanged — the rejection happens before any insertion. -/
theorem spec_c10_invalid_kind (g : Graph) (form : FormData) (uid : String)
    (h1 : truthyO form.subjectName) (h2 : truthyO form.subjectClass)
    (h3 : truthyO form.property) (h4 : truthyO form.objectKind)
    (h5 : form.objectKind ≠ some "literal")
    (h6 : form.objectKind ≠ some "instance") :
    add_triple g form uid = (g, AddResult.invalidKind) := by
  unfold add_triple
  split
  · rename_i hA
    exact absurd ⟨h1, h2, h3, h4⟩ hA
  · split
    · rename_i hB
      exact absurd hB.1 h5
    · split
      · rename_i hC
        exact absurd hC.1 h6
      · simp only [if_neg h5, if_neg h6]

theorem spec_c10_invalid_kind_wit :
    add_triple []
      ⟨some "Ada", some "http://ex/C", some "http://ex/P", some "other",
        some "v", some "http://ex/I"⟩ "u1" = (([] : Graph), AddResult.invalidKind) :=
  spec_c10_invalid_kind [] _ "u1" (by decide) (by decide) (by decide) (by decide)
    (by decide) (by decide)

/-- C9: minting is injective in the generated unique token and ignores the
name hint: any list of pairwise distinct UUID draws yields pairwise distinct
minted IRIs, and the hint argument does not influence the minted IRI. -/
theorem spec_c9_mint (base : String) (name_hint : Option String)
    (uuids : List String) (h : uuids.Nodup) :
    (uuids.map (mint_instance_uri base name_hint)).Nodup ∧
    ∀ (n1 n2 : Option String) (u : String),
      mint_instance_uri base n1 u = mint_instance_uri base n2 u := by
  constructor
  · exact h.map (fun u1 u2 hu => mint_instance_uri_inj hu)
  · intro n1 n2 u
    rfl

theorem spec_c9_mint_wit :
    ((["u1", "u2", "u3"].map (mint_instance_uri BASE_URI_str (some "Ada"))).Nodup ∧
      mint_instance_uri BASE_URI_str (some "Ada") "u1" =
        mint_instance_uri BASE_URI_str none "u1") :=
  ⟨(spec_c9_mint BASE_URI_str (some "Ada") ["u1", "u2", "u3"] (by decide)).1,
   (spec_c9_mint BASE_URI_str (some "Ada") ["u1", "u2", "u3"] (by decide)).2
     (some "Ada") none "u1"⟩

/-- C6: a valid submission mints the subject as the base namespace plus the
fresh unique token, succeeds, and the resulting graph holds exactly the old
triples plus the three new ones (type, label, and the chosen relationship,
whose object is a literal or an instance reference according to the kind);
distinct unique tokens always mint distinct subjects, so re-submitting the
same name creates a second, distinct subject IRI. -/
theorem spec_c6_add (g : Graph) (form : FormData) (uid : String)
    (h1 : truthyO form.subjectName) (h2 : truthyO form.subjectClass)
    (h3 : truthyO form.property)
    (h5 : (form.objectKind = some "literal" ∧ truthyO form.objectValueLiteral) ∨
          (form.objectKind = some "instance" ∧ truthyO form.objectValueInstance)) :
    (add_triple g form uid).2 =
      AddResult.success (Node.uri (BASE_URI_str ++ uid)) ∧
    (∀ t : Triple, t ∈ (add_triple g form uid).1 ↔
      (t ∈ g ∨
       t = ⟨Node.uri (BASE_URI_str ++ uid), RDF_type,
            Node.uri (form.subjectClass.getD "")⟩ ∨
       t = ⟨Node.uri (BASE_URI_str ++ uid), RDFS_label,
            Node.lit (form.subjectName.getD "") ""⟩ ∨
       t = ⟨Node.uri (BASE_URI_str ++ uid), Node.uri (form.property.getD ""),
            if form.objectKind = some "literal"
            then Node.lit (form.objectValueLiteral.getD "") ""
            else Node.uri (form.objectValueInstance.getD "")⟩)) ∧
    (∀ u1 u2 : String, u1 ≠ u2 →
      mint_instance_uri BASE_URI_str form.subjectName u1 ≠
        mint_instance_uri BASE_URI_str form.subjectName u2) := by
  have h4 : truthyO form.objectKind := by
    rcases h5 with ⟨hk, _⟩ | ⟨hk, _⟩ <;> rw [hk] <;> decide
  refine ⟨?_, ?_, ?_⟩
  case refine_3 =>
    intro u1 u2 hne heq
    exact hne (mint_instance_uri_inj heq)
  all_goals
    unfold add_triple
    rw [if_neg (not_not_intro ⟨h1, h2, h3, h4⟩)]
  case refine_1 =>
    rcases h5 with ⟨hk, hv⟩ | ⟨hk, hv⟩
    · rw [if_neg (fun hB => hB.2 hv), if_neg (fun hC => by
        rw [hk] at hC; exact absurd hC.1 (by decide)), if_pos hk]
      rfl
    · rw [if_neg (fun hB => by
        rw [hk] at hB; exact absurd hB.1 (by decide)),
        if_neg (fun hC => hC.2 hv), if_neg (fun hL => by
        rw [hk] at hL; exact absurd hL (by decide)), if_pos hk]
      rfl
  case refine_2 =>
    intro t
    rcases h5 with ⟨hk, hv⟩ | ⟨hk, hv⟩
    · rw [if_neg (fun hB => hB.2 hv), if_neg (fun hC => by
        rw [hk] at hC; exact absurd hC.1 (by decide)), if_pos hk, if_pos hk]
      simp only [mint_instance_uri, mem_graphAdd, or_assoc]
    · rw [if_neg (fun hB => by
        rw [hk] at hB; exact absurd hB.1 (by decide)),
        if_neg (fun hC => hC.2 hv), if_neg (fun hL => by
        rw [hk] at hL; exact absurd hL (by decide)), if_pos hk,
        if_neg (fun hL => by rw [hk] at hL; exact absurd hL (by decide))]
      simp only [mint_instance_uri, mem_graphAdd, or_assoc]

theorem spec_c6_add_wit :
    (add_triple []
        ⟨some "Ada", some "http://ex/C", some "http://ex/P", some "instance",
          none, some "http://ex/I"⟩ "u1").2 =
      AddResult.success (Node.uri (BASE_URI_str ++ "u1")) ∧
    (⟨Node.uri (BASE_URI_str ++ "u1"), RDF_type, Node.uri "http://ex/C"⟩ :
        Triple) ∈
      (add_triple []
        ⟨some "Ada", some "http://ex/C", some "http://ex/P", some "instance",
          none, some "http://ex/I"⟩ "u1").1 :=
  ⟨(spec_c6_add [] _ "u1" (by decide) (by decide) (by decide)
      (Or.inr ⟨rfl, by decide⟩)).1,
   ((spec_c6_add [] _ "u1" (by decide) (by decide) (by decide)
      (Or.inr ⟨rfl, by decide⟩)).2.1 _).mpr (Or.inr (Or.inl rfl))⟩

theorem afterLast_afterLast (s : String) :
    afterLast '/' (afterLast '#' s) = localFragment s := by
  unfold afterLast localFragment
  simp only [List.reverse_reverse]
  rw [List.takeWhile_takeWhile]
  have hf : (fun a => decide (decide (a ≠ '/') = true ∧ decide (a ≠ '#') = true)) =
      (fun a => decide (a ≠ '/') && decide (a ≠ '#')) := by
    funext a
    simp [Bool.decide_and]
  rw [hf]

/-- C8 (amended): `get_label` implements the three-tier fallback chain of the
spec with the preferred-label tier requiring a non-empty label: literal value,
else truthy preferred label, else non-empty local-name fragment, else the full
IRI string; the function is total, so no traversal failure can escape. -/
theorem spec_c8_label (entity : Node) (g : Graph) :
    get_label entity g = resolveLabelSpec entity g := by
  unfold get_label resolveLabelSpec
  cases entity with
  | lit v l => rfl
  | uri s =>
    cases graphValue g (Node.uri s) RDFS_label with
    | none => simp only [afterLast_afterLast]
    | some l => simp only [afterLast_afterLast]
  | bnode b =>
    cases graphValue g (Node.bnode b) RDFS_label with
    | none => simp only [afterLast_afterLast]
    | some l => simp only [afterLast_afterLast]

theorem spec_c8_label_wit :
    get_label (Node.uri "http://ex/y") [] =
      resolveLabelSpec (Node.uri "http://ex/y") [] :=
  spec_c8_label (Node.uri "http://ex/y") []

/-- C8 counterexample: the entity has a preferred label present in the graph
(the empty literal), yet `get_label` does not return its lexical value `""` —
it falls through to the local-name fragment `"x"`. -/
theorem spec_c8_counterexample :
    graphValue gC8 (Node.uri "http://ex/x") RDFS_label =
      some (Node.lit "" "") ∧
    get_label (Node.uri "http://ex/x") gC8 = "x" ∧ ("x" : String) ≠ "" := by
  decide

/-- C1: every property entry returned by `get_properties_for_class` is the
processing of some solution row, and its resolved `object_kind` follows the
claim's resolution rule applied to that row's declared kind and the entry's
range. -/
theorem spec_c1_value_kind (g : Graph) (class_uri_str : String) (e : PEntry)
    (he : e ∈ get_properties_for_class g class_uri_str) :
    ∃ row ∈ propRowList g class_uri_str, e = processPropRow g row ∧
      e.object_kind = claimValueKind g row.ptype e.range := by
  unfold get_properties_for_class get_properties_for_class_run at he
  split at he
  · cases he
  · have h1 := dedupByUri_subset _ _ e he
    obtain ⟨row, hrow, hrfl⟩ := List.mem_map.1 h1
    refine ⟨row, hrow, hrfl.symm, ?_⟩
    rw [← hrfl]
    rfl

theorem spec_c1_value_kind_wit :
    (⟨"http://ex/P", "P", some "http://www.w3.org/2001/XMLSchema#string",
        "literal"⟩ : PEntry) ∈
      get_properties_for_class
        [⟨Node.uri "http://ex/P", RDF_type, OWL_DatatypeProperty⟩,
         ⟨Node.uri "http://ex/P", RDFS_domain, Node.uri "http://ex/A"⟩,
         ⟨Node.uri "http://ex/P", RDFS_range,
           Node.uri "http://www.w3.org/2001/XMLSchema#string"⟩]
        "http://ex/A" ∧
    ∃ row ∈ propRowList
        [⟨Node.uri "http://ex/P", RDF_type, OWL_DatatypeProperty⟩,
         ⟨Node.uri "http://ex/P", RDFS_domain, Node.uri "http://ex/A"⟩,
         ⟨Node.uri "http://ex/P", RDFS_range,
           Node.uri "http://www.w3.org/2001/XMLSchema#string"⟩]
        "http://ex/A",
      (⟨"http://ex/P", "P", some "http://www.w3.org/2001/XMLSchema#string",
          "literal"⟩ : PEntry) = processPropRow
        [⟨Node.uri "http://ex/P", RDF_type, OWL_DatatypeProperty⟩,
         ⟨Node.uri "http://ex/P", RDFS_domain, Node.uri "http://ex/A"⟩,
         ⟨Node.uri "http://ex/P", RDFS_range,
           Node.uri "http://www.w3.org/2001/XMLSchema#string"⟩] row ∧
      (⟨"http://ex/P", "P", some "http://www.w3.org/2001/XMLSchema#string",
          "literal"⟩ : PEntry).object_kind = claimValueKind
        [⟨Node.uri "http://ex/P", RDF_type, OWL_DatatypeProperty⟩,
         ⟨Node.uri "http://ex/P", RDFS_domain, Node.uri "http://ex/A"⟩,
         ⟨Node.uri "http://ex/P", RDFS_range,
           Node.uri "http://www.w3.org/2001/XMLSchema#string"⟩] row.ptype
        (⟨"http://ex/P", "P", some "http://www.w3.org/2001/XMLSchema#string",
          "literal"⟩ : PEntry).range :=
  ⟨by decide, spec_c1_value_kind _ "http://ex/A" _ (by decide)⟩

/-- C3 counterexample: a class with two distinct eligible labels appears twice
in the class list — `get_ontology_classes` deduplicates query rows, not IRIs. -/
theorem spec_c3_counterexample :
    (get_ontology_classes gC3).map CEntry.uri =
      ["http://ex/A", "http://ex/A"] ∧
    ¬((get_ontology_classes gC3).map CEntry.uri).Nodup := by
  decide

/-- C3 (amended): `get_properties_for_class` never returns two entries with
the same IRI, whatever derivation paths produced them; `get_ontology_classes`
deduplicates only at the level of solution rows (IRI–label pairs): its output
is the image of a duplicate-free row list, so one IRI can recur only under
distinct labels. -/
theorem spec_c3_dedup :
    (∀ (g : Graph) (class_uri_str : String),
      ((get_properties_for_class g class_uri_str).map PEntry.uri).Nodup) ∧
    (∀ g : Graph, (classRowList g).Nodup ∧
      get_ontology_classes g = (classRowList g).map (processClassRow g)) := by
  constructor
  · intro g c
    unfold get_properties_for_class get_properties_for_class_run
    split
    · simp
    · exact (dedupByUri_nodup _ _).1
  · intro g
    refine ⟨?_, rfl⟩
    exact ((List.perm_insertionSort cRowLE _).symm).nodup (List.nodup_dedup _)

theorem mem_typesOf {g : Graph} {p pt : Node} :
    pt ∈ typesOf g p ↔
      ((⟨p, RDF_type, pt⟩ : Triple) ∈ g ∧ pt ∈ recPropTypes) := by
  unfold typesOf
  rw [mem_filterMap_guard]
  constructor
  · rintro ⟨⟨ts, tp, tob⟩, ht, ⟨hs, hp2, ho⟩, rfl⟩
    subst hs
    subst hp2
    exact ⟨ht, ho⟩
  · rintro ⟨hmem, hrec⟩
    exact ⟨⟨p, RDF_type, pt⟩, hmem, ⟨rfl, rfl, hrec⟩, rfl⟩

theorem mem_propCandidates {g : Graph} {target p : Node} :
    p ∈ propCandidates g target ↔
      ((∃ d : Node, (⟨p, RDFS_domain, d⟩ : Triple) ∈ g ∧
          d ∈ superClosure g target) ∨
       ((∃ pt ∈ recPropTypes, (⟨p, RDF_type, pt⟩ : Triple) ∈ g) ∧
          ¬hasDomain g p)) := by
  unfold propCandidates
  rw [List.mem_append, mem_filterMap_guard, List.mem_filter]
  constructor
  · rintro (⟨⟨ts, tp, tob⟩, ht, ⟨hp2, ho⟩, rfl⟩ | ⟨hbase, hnd⟩)
    · subst hp2
      exact Or.inl ⟨tob, ht, ho⟩
    · rw [mem_filterMap_guard] at hbase
      obtain ⟨⟨ts, tp, tob⟩, ht, ⟨hp2, ho⟩, rfl⟩ := hbase
      subst hp2
      exact Or.inr ⟨⟨tob, ho, ht⟩, of_decide_eq_true hnd⟩
  · rintro (⟨d, hd, hdc⟩ | ⟨⟨pt, hrec, hmem⟩, hnd⟩)
    · exact Or.inl ⟨⟨p, RDFS_domain, d⟩, hd, ⟨rfl, hdc⟩, rfl⟩
    · refine Or.inr ⟨?_, decide_eq_true hnd⟩
      rw [mem_filterMap_guard]
      exact ⟨⟨p, RDF_type, pt⟩, hmem, ⟨rfl, hrec⟩, rfl⟩

theorem propRowsRaw_prop {g : Graph} {class_uri_str : String} {row : PropRow}
    (hrow : row ∈ propRowsRaw g class_uri_str) :
    row.prop ∈ propCandidates g (Node.uri class_uri_str) ∧
    w3Match (nodeStr row.prop) = false ∧ typesOf g row.prop ≠ [] := by
  unfold propRowsRaw at hrow
  obtain ⟨p, hp, hin⟩ := List.mem_flatMap.1 hrow
  by_cases hw : w3Match (nodeStr p) = true
  · rw [if_pos hw] at hin
    cases hin
  · rw [if_neg hw] at hin
    obtain ⟨pt, hpt, hin2⟩ := List.mem_flatMap.1 hin
    obtain ⟨lopt, _, hin3⟩ := List.mem_flatMap.1 hin2
    obtain ⟨ropt, _, heq⟩ := List.mem_map.1 hin3
    have hprop : row.prop = p := by rw [← heq]
    rw [hprop]
    exact ⟨hp, Bool.not_eq_true _ ▸ eq_false_of_ne_true hw,
      List.ne_nil_of_mem hpt⟩

theorem propRowsRaw_exists {g : Graph} {class_uri_str : String} {p pt : Node}
    (hcand : p ∈ propCandidates g (Node.uri class_uri_str))
    (hw : w3Match (nodeStr p) = false) (hpt : pt ∈ typesOf g p) :
    ∃ row ∈ propRowsRaw g class_uri_str, row.prop = p := by
  obtain ⟨lopt, hl⟩ :=
    List.exists_mem_of_ne_nil _ (optRows_ne_nil (eligibleLabels g p))
  obtain ⟨ropt, hr⟩ :=
    List.exists_mem_of_ne_nil _ (optRows_ne_nil (rangesOf g p))
  refine ⟨_, ?_, (rfl :
    (⟨p, lopt.getD (Node.lit (afterLast '#' (afterLast '/' (nodeStr p))) ""),
      ropt.getD (Node.lit "" ""), propTypeName pt⟩ : PropRow).prop = p)⟩
  unfold propRowsRaw
  apply List.mem_flatMap.2
  refine ⟨p, hcand, ?_⟩
  rw [if_neg (by rw [hw]; exact Bool.false_ne_true)]
  apply List.mem_flatMap.2
  refine ⟨pt, hpt, ?_⟩
  apply List.mem_flatMap.2
  refine ⟨lopt, hl, ?_⟩
  exact List.mem_map.2 ⟨ropt, hr, rfl⟩

theorem props_uri_mem (g : Graph) (class_uri_str : String)
    (hc : class_uri_str ≠ "") (s : String) :
    (∃ e ∈ get_properties_for_class g class_uri_str, e.uri = s) ↔
    (∃ row ∈ propRowsRaw g class_uri_str, nodeStr row.prop = s) := by
  unfold get_properties_for_class get_properties_for_class_run
  rw [if_neg hc]
  rw [← dedupByUri_uri_mem _ [] s (List.not_mem_nil s)]
  constructor
  · rintro ⟨e, he, rfl⟩
    obtain ⟨row, hr, rfl⟩ := List.mem_map.1 he
    refine ⟨row, ?_, rfl⟩
    exact List.mem_dedup.1 ((List.mem_insertionSort propRowLE).1 hr)
  · rintro ⟨row, hr, rfl⟩
    refine ⟨processPropRow g row, List.mem_map.2 ⟨row, ?_, rfl⟩, rfl⟩
    exact (List.mem_insertionSort propRowLE).2 (List.mem_dedup.2 hr)

/-- C2 counterexample: property P has declared domain A (and A trivially
belongs to the reflexive-transitive superclass closure of itself), yet
`get_properties_for_class` on A returns nothing, because P carries no
recognized property-kind declaration, which the query requires of every
result. -/
theorem spec_c2_counterexample :
    (⟨Node.uri "http://ex/P", RDFS_domain, Node.uri "http://ex/A"⟩ : Triple)
        ∈ gC2 ∧
    Relation.ReflTransGen (SubEdge gC2) (Node.uri "http://ex/A")
      (Node.uri "http://ex/A") ∧
    get_properties_for_class gC2 "http://ex/A" = [] :=
  ⟨by decide, Relation.ReflTransGen.refl, by decide⟩

/-- C2 (amended): an IRI appears in `get_properties_for_class(graph, c)` for a
non-empty class IRI `c` exactly when it denotes a property that is declared as
a recognized property kind (owl:ObjectProperty, owl:DatatypeProperty or
rdf:Property), lies outside the reserved `http://www.w3.org/` namespace, and
either has a domain intersecting the reflexive-transitive superclass closure
of `c` or carries no domain declaration at all; in particular properties
inherited through a subclass chain are collected only when they also carry a
recognized kind declaration. -/
theorem spec_c2_collects (g : Graph) (class_uri_str : String) (s : String)
    (hc : class_uri_str ≠ "") :
    (∃ e ∈ get_properties_for_class g class_uri_str, e.uri = s) ↔
    (∃ p : Node, nodeStr p = s ∧ w3Match (nodeStr p) = false ∧
      (∃ pt ∈ recPropTypes, (⟨p, RDF_type, pt⟩ : Triple) ∈ g) ∧
      ((∃ d : Node, (⟨p, RDFS_domain, d⟩ : Triple) ∈ g ∧
          Relation.ReflTransGen (SubEdge g) (Node.uri class_uri_str) d) ∨
        ¬hasDomain g p)) := by
  rw [props_uri_mem g class_uri_str hc s]
  constructor
  · rintro ⟨row, hrow, rfl⟩
    obtain ⟨hcand, hw, hne⟩ := propRowsRaw_prop hrow
    obtain ⟨pt, hpt⟩ := List.exists_mem_of_ne_nil _ hne
    obtain ⟨hmem, hrec⟩ := mem_typesOf.1 hpt
    refine ⟨row.prop, rfl, hw, ⟨pt, hrec, hmem⟩, ?_⟩
    rcases mem_propCandidates.1 hcand with ⟨d, hd, hdc⟩ | ⟨_, hnd⟩
    · exact Or.inl ⟨d, hd, mem_superClosure.1 hdc⟩
    · exact Or.inr hnd
  · rintro ⟨p, rfl, hw, ⟨pt, hrec, hmem⟩, hdom⟩
    have hcand : p ∈ propCandidates g (Node.uri class_uri_str) := by
      apply mem_propCandidates.2
      rcases hdom with ⟨d, hd, hrtg⟩ | hnd
      · exact Or.inl ⟨d, hd, mem_superClosure.2 hrtg⟩
      · exact Or.inr ⟨⟨pt, hrec, hmem⟩, hnd⟩
    have hpt : pt ∈ typesOf g p := mem_typesOf.2 ⟨hmem, hrec⟩
    obtain ⟨row, hrow, hprop⟩ := propRowsRaw_exists hcand hw hpt
    exact ⟨row, hrow, by rw [hprop]⟩

theorem spec_c2_collects_wit :
    (∃ e ∈ get_properties_for_class
        [⟨Node.uri "http://ex/Q", RDF_type, OWL_ObjectProperty⟩,
         ⟨Node.uri "http://ex/Q", RDFS_domain, Node.uri "http://ex/A"⟩,
         ⟨Node.uri "http://ex/B", RDFS_subClassOf, Node.uri "http://ex/A"⟩]
        "http://ex/B", e.uri = "http://ex/Q") :=
  (spec_c2_collects
      [⟨Node.uri "http://ex/Q", RDF_type, OWL_ObjectProperty⟩,
       ⟨Node.uri "http://ex/Q", RDFS_domain, Node.uri "http://ex/A"⟩,
       ⟨Node.uri "http://ex/B", RDFS_subClassOf, Node.uri "http://ex/A"⟩]
      "http://ex/B" "http://ex/Q" (by decide)).mpr
    ⟨Node.uri "http://ex/Q", rfl, by decide,
     ⟨OWL_ObjectProperty, by decide, by decide⟩,
     Or.inl ⟨Node.uri "http://ex/A", by decide,
       Relation.ReflTransGen.single (by decide)⟩⟩

theorem node_is_uri {n : Node} (h1 : isLit n = false) (h2 : isBlank n = false) :
    n = Node.uri (nodeStr n) := by
  cases n with
  | uri s => rfl
  | lit v l => cases h1
  | bnode b => cases h2

theorem mem_instPairs {g : Graph} {i ty : Node} :
    (i, ty) ∈ instPairs g ↔ (⟨i, RDF_type, ty⟩ : Triple) ∈ g := by
  unfold instPairs
  rw [mem_filterMap_guard]
  constructor
  · rintro ⟨⟨ts, tp, tob⟩, ht, hp2, heq⟩
    subst hp2
    injection heq with h1 h2
    subst h1
    subst h2
    exact ht
  · intro h
    exact ⟨⟨i, RDF_type, ty⟩, h, rfl, rfl⟩

theorem instFilterOK_some {g : Graph} {c : String} (hc : c ≠ "")
    {i ty : Node} :
    instFilterOK g (some c) i ty = true ↔
      (Node.uri c ∈ superClosure g ty ∧
       (⟨i, RDF_type, OWL_Class⟩ : Triple) ∉ g ∧
       (⟨i, RDF_type, RDF_Property⟩ : Triple) ∉ g ∧ isBlank i = false) := by
  unfold instFilterOK
  simp [hc, Bool.and_eq_true, decide_eq_true_eq, Bool.not_eq_true', and_assoc]

theorem instFilterOK_none {g : Graph} {i ty : Node} :
    instFilterOK g none i ty = true ↔
      ((⟨i, RDF_type, OWL_Class⟩ : Triple) ∉ g ∧
       (⟨i, RDF_type, RDF_Property⟩ : Triple) ∉ g ∧ isBlank i = false) := by
  unfold instFilterOK
  simp [Bool.and_eq_true, decide_eq_true_eq, Bool.not_eq_true', and_assoc]

theorem instRowsRaw_inst {g : Graph} {copt : Option String} {row : IRow}
    (h : row ∈ instRowsRaw g copt) :
    ∃ ty : Node, (⟨row.inst, RDF_type, ty⟩ : Triple) ∈ g ∧
      instFilterOK g copt row.inst ty = true := by
  unfold instRowsRaw at h
  obtain ⟨⟨i, ty⟩, hpr, hin⟩ := List.mem_flatMap.1 h
  obtain ⟨lopt, _, heq⟩ := List.mem_map.1 hin
  have hinst : row.inst = i := by rw [← heq]
  obtain ⟨hmem, hok⟩ := List.mem_filter.1 hpr
  rw [hinst]
  exact ⟨ty, mem_instPairs.1 hmem, hok⟩

theorem instRowsRaw_exists {g : Graph} {copt : Option String} {i ty : Node}
    (hmem : (⟨i, RDF_type, ty⟩ : Triple) ∈ g)
    (hok : instFilterOK g copt i ty = true) :
    ∃ row ∈ instRowsRaw g copt, row.inst = i := by
  obtain ⟨lopt, hl⟩ :=
    List.exists_mem_of_ne_nil _ (optRows_ne_nil (eligibleLabels g i))
  refine ⟨_, ?_, (rfl :
    (⟨i, lopt.getD
      (Node.lit (afterLast '#' (afterLast '/' (nodeStr i))) "")⟩ : IRow).inst = i)⟩
  unfold instRowsRaw
  apply List.mem_flatMap.2
  refine ⟨(i, ty), List.mem_filter.2 ⟨mem_instPairs.2 hmem, hok⟩, ?_⟩
  exact List.mem_map.2 ⟨lopt, hl, rfl⟩

theorem inst_uri_mem (g : Graph) (copt : Option String) (s : String) :
    (∃ e ∈ get_existing_instances g copt, e.uri = s) ↔
    (s ≠ EX_str ∧ ∃ row ∈ instRowsRaw g copt, nodeStr row.inst = s) := by
  unfold get_existing_instances get_existing_instances_run instRowList
  constructor
  · rintro ⟨e, he, rfl⟩
    obtain ⟨row, hrow, rfl⟩ := List.mem_map.1 he
    obtain ⟨hmem, hskip⟩ := List.mem_filter.1 hrow
    have hraw : row ∈ instRowsRaw g copt :=
      List.mem_dedup.1 ((List.mem_insertionSort iRowLE).1 hmem)
    exact ⟨of_decide_eq_true hskip, row, hraw, rfl⟩
  · rintro ⟨hne, row, hrow, rfl⟩
    refine ⟨processInstRow g row,
      List.mem_map.2 ⟨row, List.mem_filter.2 ⟨?_, decide_eq_true hne⟩, rfl⟩, rfl⟩
    exact (List.mem_insertionSort iRowLE).2 (List.mem_dedup.2 hrow)

/-- C4: over any graph without literal subjects, an IRI appears in
`get_existing_instances` exactly when it is the subject of an `rdf:type`
triple whose type reaches the given class IRI along the subclass-of relation
(is the class or one of its descendants) — any `rdf:type` triple when no class
is given — and it is not typed `owl:Class`, not typed `rdf:Property`, not a
blank node (blank subjects never produce an IRI entry), and is not the
ontology's own base namespace IRI. -/
theorem spec_c4_instances (g : Graph)
    (hwf : ∀ t ∈ g, isLit t.s = false) :
    (∀ class_uri_str : String, class_uri_str ≠ "" → ∀ s : String,
      ((∃ e ∈ get_existing_instances g (some class_uri_str), e.uri = s) ↔
        (s ≠ EX_str ∧
         (∃ ty : Node, (⟨Node.uri s, RDF_type, ty⟩ : Triple) ∈ g ∧
           Relation.ReflTransGen (SubEdge g) ty (Node.uri class_uri_str)) ∧
         (⟨Node.uri s, RDF_type, OWL_Class⟩ : Triple) ∉ g ∧
         (⟨Node.uri s, RDF_type, RDF_Property⟩ : Triple) ∉ g))) ∧
    (∀ s : String,
      ((∃ e ∈ get_existing_instances g none, e.uri = s) ↔
        (s ≠ EX_str ∧
         (∃ ty : Node, (⟨Node.uri s, RDF_type, ty⟩ : Triple) ∈ g) ∧
         (⟨Node.uri s, RDF_type, OWL_Class⟩ : Triple) ∉ g ∧
         (⟨Node.uri s, RDF_type, RDF_Property⟩ : Triple) ∉ g))) := by
  constructor
  · intro c hc s
    rw [inst_uri_mem]
    constructor
    · rintro ⟨hne, row, hrow, rfl⟩
      obtain ⟨ty, hmem, hok⟩ := instRowsRaw_inst hrow
      rw [instFilterOK_some hc] at hok
      obtain ⟨hscope, hnc, hnp, hnb⟩ := hok
      have hu : row.inst = Node.uri (nodeStr row.inst) :=
        node_is_uri (hwf _ hmem) hnb
      refine ⟨hne, ⟨ty, ?_, mem_superClosure.1 hscope⟩, ?_, ?_⟩
      · rw [← hu]; exact hmem
      · rw [← hu]; exact hnc
      · rw [← hu]; exact hnp
    · rintro ⟨hne, ⟨ty, hmem, hrtg⟩, hnc, hnp⟩
      refine ⟨hne, ?_⟩
      have hok : instFilterOK g (some c) (Node.uri s) ty = true := by
        rw [instFilterOK_some hc]
        exact ⟨mem_superClosure.2 hrtg, hnc, hnp, rfl⟩
      obtain ⟨row, hrow, hinst⟩ := instRowsRaw_exists hmem hok
      exact ⟨row, hrow, by rw [hinst]; rfl⟩
  · intro s
    rw [inst_uri_mem]
    constructor
    · rintro ⟨hne, row, hrow, rfl⟩
      obtain ⟨ty, hmem, hok⟩ := instRowsRaw_inst hrow
      rw [instFilterOK_none] at hok
      obtain ⟨hnc, hnp, hnb⟩ := hok
      have hu : row.inst = Node.uri (nodeStr row.inst) :=
        node_is_uri (hwf _ hmem) hnb
      refine ⟨hne, ⟨ty, ?_⟩, ?_, ?_⟩
      · rw [← hu]; exact hmem
      · rw [← hu]; exact hnc
      · rw [← hu]; exact hnp
    · rintro ⟨hne, ⟨ty, hmem⟩, hnc, hnp⟩
      refine ⟨hne, ?_⟩
      have hok : instFilterOK g none (Node.uri s) ty = true := by
        rw [instFilterOK_none]
        exact ⟨hnc, hnp, rfl⟩
      obtain ⟨row, hrow, hinst⟩ := instRowsRaw_exists hmem hok
      exact ⟨row, hrow, by rw [hinst]; rfl⟩

theorem spec_c4_instances_wit :
    ∃ e ∈ get_existing_instances
        [⟨Node.uri "http://ex/X", RDF_type, Node.uri "http://ex/B"⟩,
         ⟨Node.uri "http://ex/B", RDFS_subClassOf, Node.uri "http://ex/A"⟩]
        (some "http://ex/A"), e.uri = "http://ex/X" :=
  ((spec_c4_instances
      [⟨Node.uri "http://ex/X", RDF_type, Node.uri "http://ex/B"⟩,
       ⟨Node.uri "http://ex/B", RDFS_subClassOf, Node.uri "http://ex/A"⟩]
      (by decide)).1 "http://ex/A" (by decide) "http://ex/X").mpr
    ⟨by decide, ⟨Node.uri "http://ex/B", by decide,
      Relation.ReflTransGen.single (by decide)⟩, by decide, by decide⟩
